import Mathlib

/-!
Verification development for the schema-less protobuf wire decoder
(`mitmproxy/contentviews/_view_protobuf.py`) and the Connect/gRPC frame
unwrapper (`mitmproxy/contentviews/_view_connect_protobuf.py`).

Bytes are modelled as `List Nat` (each entry a byte value), Python `str`
as `List Char` or Lean `String`, Python unbounded `int` as `Nat`/`Int`,
and raised exceptions as `Option`/`Except` failures.

Python's Unicode-table predicates `str.isprintable` and `str.isalnum`
are external to the decoder's logic; they are threaded through as
explicit parameters `pr al : Char → Bool`.  Concrete ASCII
instantiations (which agree with Python on the ASCII range) are provided
for evaluation.
-/

namespace MitmProto

/-- Python's `sub in hay` substring test on strings. -/
def contains_sub : List Char → List Char → Bool
  | hay, pat =>
    if pat.isPrefixOf hay then true
    else
      match hay with
      | [] => false
      | _ :: t => contains_sub t pat

/-- The characters removed by Python's `str.strip()` / `str.lstrip()`
(default whitespace; the rare non-ASCII Unicode spaces are not modelled). -/
def is_py_space (c : Char) : Bool :=
  c = ' ' || c = '\t' || c = '\n' || c = '\r' || c = '\x0B' || c = '\x0C'

/-- Python `str.strip()` on a character list. -/
def py_strip (l : List Char) : List Char :=
  ((l.dropWhile is_py_space).reverse.dropWhile is_py_space).reverse

/-- Python `str.lstrip()` on a character list. -/
def py_lstrip (l : List Char) : List Char :=
  l.dropWhile is_py_space

/-- Python `str.lower()` (ASCII case mapping, as in the header values and
content types this code processes). -/
def py_lower (l : List Char) : List Char :=
  l.map Char.toLower

/-- `py_strip` packaged on `String`. -/
def py_strip_s (s : String) : String :=
  String.mk (py_strip s.data)

/-- `py_lstrip` packaged on `String`. -/
def py_lstrip_s (s : String) : String :=
  String.mk (py_lstrip s.data)

/-- `py_lower` packaged on `String`. -/
def py_lower_s (s : String) : String :=
  String.mk (py_lower s.data)

/-- Big-endian interpretation of a byte list (`int.from_bytes(_, "big")`). -/
def be_bytes (l : List Nat) : Nat :=
  l.foldl (fun acc b => acc * 256 + b) 0

/-- Little-endian interpretation of a byte list. -/
def le_bytes (l : List Nat) : Nat :=
  l.foldr (fun b acc => acc * 256 + b) 0

/-- Python's `val.split(",")` (the separator is the literal comma). -/
def py_split_comma (s : String) : List String :=
  (List.splitOn ',' s.data).map String.mk

/-- One lowercase-hex byte, as produced by Python's `bytes.hex()`. -/
def byte_hex (b : Nat) : List Char :=
  [Nat.digitChar (b / 16 % 16), Nat.digitChar (b % 16)]

/-- `body[:64].hex() + ("..." if len(body) > 64 else "")`. -/
def hex_preview (body : List Nat) : List Char :=
  (body.take 64).flatMap byte_hex ++ (if body.length > 64 then ['.', '.', '.'] else [])

/-- A UTF-8 continuation byte. -/
def is_cont (b : Nat) : Bool :=
  0x80 ≤ b && b < 0xC0

/-- Validity of a 2-byte UTF-8 sequence (no overlongs: start byte `C2..DF`). -/
def utf8_ok2 (b c1 : Nat) : Bool :=
  0xC2 ≤ b && b ≤ 0xDF && is_cont c1

/-- Code point of a valid 2-byte sequence. -/
def utf8_char2 (b c1 : Nat) : Char :=
  Char.ofNat ((b - 0xC0) * 0x40 + (c1 - 0x80))

/-- Validity of a 3-byte UTF-8 sequence with start byte `E0..EF`
(excluding overlongs after `E0` and surrogates after `ED`). -/
def utf8_ok3 (b c1 c2 : Nat) : Bool :=
  (if b = 0xE0 then 0xA0 ≤ c1 && c1 ≤ 0xBF
   else if b = 0xED then 0x80 ≤ c1 && c1 ≤ 0x9F
   else is_cont c1) && is_cont c2

/-- Code point of a valid 3-byte sequence. -/
def utf8_char3 (b c1 c2 : Nat) : Char :=
  Char.ofNat ((b - 0xE0) * 0x1000 + (c1 - 0x80) * 0x40 + (c2 - 0x80))

/-- Validity of a 4-byte UTF-8 sequence with start byte `F0..`
(start byte at most `F4`, no overlongs after `F0`, at most `U+10FFFF`). -/
def utf8_ok4 (b c1 c2 c3 : Nat) : Bool :=
  b ≤ 0xF4 &&
    (if b = 0xF0 then 0x90 ≤ c1 && c1 ≤ 0xBF
     else if b = 0xF4 then 0x80 ≤ c1 && c1 ≤ 0x8F
     else is_cont c1) && is_cont c2 && is_cont c3

/-- Code point of a valid 4-byte sequence. -/
def utf8_char4 (b c1 c2 c3 : Nat) : Char :=
  Char.ofNat ((b - 0xF0) * 0x40000 + (c1 - 0x80) * 0x1000 +
    (c2 - 0x80) * 0x40 + (c3 - 0x80))

/-- Strict UTF-8 decoding, as performed by Python's `bytes.decode("utf-8")`:
rejects invalid start bytes, truncated sequences, overlong encodings,
surrogates and code points above `0x10FFFF`. -/
def utf8_decode : List Nat → Option (List Char)
  | [] => some []
  | b :: rest =>
    if b < 0x80 then (utf8_decode rest).map (Char.ofNat b :: ·)
    else if b ≤ 0xDF then
      match rest with
      | c1 :: r =>
        if utf8_ok2 b c1 then (utf8_decode r).map (utf8_char2 b c1 :: ·) else none
      | [] => none
    else if b ≤ 0xEF then
      match rest with
      | c1 :: c2 :: r =>
        if utf8_ok3 b c1 c2 then (utf8_decode r).map (utf8_char3 b c1 c2 :: ·) else none
      | _ => none
    else
      match rest with
      | c1 :: c2 :: c3 :: r =>
        if utf8_ok4 b c1 c2 c3 then (utf8_decode r).map (utf8_char4 b c1 c2 c3 :: ·) else none
      | _ => none

/-- Python `str.isprintable` restricted to the ASCII range (space through
tilde printable, controls not).  Agrees with Python on ASCII text; used to
instantiate the `pr` parameter on concrete inputs. -/
def ascii_printable (c : Char) : Bool :=
  0x20 ≤ c.toNat && c.toNat < 0x7F

/-- Python `str.isalnum` restricted to the ASCII range; used to instantiate
the `al` parameter on concrete inputs. -/
def ascii_alnum (c : Char) : Bool :=
  ('0' ≤ c && c ≤ '9') || ('a' ≤ c && c ≤ 'z') || ('A' ≤ c && c ≤ 'Z')

/-! ## Generic protobuf wire format

Modelled from the spec: the repository decodes the wire format through
`mitmproxy.contrib.kaitaistruct.google_protobuf.GoogleProtobuf`, which is
not under `src/`.  Following §4.1 of the spec: a buffer is a sequence of
pairs, each a varint key (`field_tag = key >> 3`, `wire_type = key & 7`)
followed by a value encoded per wire type (varint / 8-byte little-endian /
length-delimited / 4-byte little-endian); the buffer must be consumed
exactly, and any other wire type or a truncated value is a parse failure. -/

/-- The decoded value of one wire-format pair, by wire type. -/
inductive PairValue where
  | varintV (u : Nat)
  | bit32V (u : Nat)
  | bit64V (u : Nat)
  | lenV (body : List Nat)
  deriving DecidableEq, Repr

/-- One decoded `(field_tag, wire_type, value)` triple. -/
structure Pair where
  field_tag : Nat
  value : PairValue
  deriving DecidableEq, Repr

/-- Modelled from the spec: little-endian base-128 varint
(continuation bit = high bit of each byte; fails if unterminated at
buffer end).  Returns the value and the remaining bytes. -/
def parse_varint : List Nat → Option (Nat × List Nat)
  | [] => none
  | b :: rest =>
    if b &&& 0x80 = 0 then some (b &&& 0x7F, rest)
    else
      match parse_varint rest with
      | none => none
      | some (v, r) => some ((b &&& 0x7F) + v * 128, r)

theorem parse_varint_length : ∀ l v r, parse_varint l = some (v, r) → r.length < l.length := by
  intro l
  induction l with
  | nil => intro v r h; simp [parse_varint] at h
  | cons b rest ih =>
    intro v r h
    simp only [parse_varint] at h
    split at h
    · simp only [Option.some.injEq, Prod.mk.injEq] at h
      obtain ⟨-, rfl⟩ := h
      simp only [List.length_cons]
      omega
    · cases hrec : parse_varint rest with
      | none => rw [hrec] at h; exact absurd h (by simp)
      | some p =>
        obtain ⟨v', r'⟩ := p
        rw [hrec] at h
        simp only [Option.some.injEq, Prod.mk.injEq] at h
        obtain ⟨-, rfl⟩ := h
        have hlt := ih v' r' hrec
        simp only [List.length_cons]
        omega

/-- Modelled from the spec: decode a buffer as a sequence of wire-format
pairs consuming it exactly (kaitai `repeat: eos` over `key`/`value`). -/
def parse_pairs (data : List Nat) : Option (List Pair) :=
  if data.isEmpty then some []
  else
    match h1 : parse_varint data with
    | none => none
    | some (key, r1) =>
      let tag := key >>> 3
      let wt := key &&& 7
      if wt = 0 then
        match h2 : parse_varint r1 with
        | none => none
        | some (v, r2) => (parse_pairs r2).map (fun ps => ⟨tag, .varintV v⟩ :: ps)
      else if wt = 1 then
        if 8 ≤ r1.length then
          (parse_pairs (r1.drop 8)).map (fun ps => ⟨tag, .bit64V (le_bytes (r1.take 8))⟩ :: ps)
        else none
      else if wt = 2 then
        match h2 : parse_varint r1 with
        | none => none
        | some (n, r2) =>
          if n ≤ r2.length then
            (parse_pairs (r2.drop n)).map (fun ps => ⟨tag, .lenV (r2.take n)⟩ :: ps)
          else none
      else if wt = 5 then
        if 4 ≤ r1.length then
          (parse_pairs (r1.drop 4)).map (fun ps => ⟨tag, .bit32V (le_bytes (r1.take 4))⟩ :: ps)
        else none
      else none
termination_by data.length
decreasing_by
  all_goals
    first
    | (have t1 := parse_varint_length _ _ _ h1
       have t2 := parse_varint_length _ _ _ h2
       try simp only [List.length_drop]
       omega)
    | (have t1 := parse_varint_length _ _ _ h1
       try simp only [List.length_drop]
       omega)

/-! ## `ProtobufContentview` (WireDecoder), from
`src/mitmproxy/contentviews/_view_protobuf.py`. -/

/-- `ProtobufContentview.MAX_NESTED_DEPTH`. -/
def MAX_NESTED_DEPTH : Nat := 10

/-- `ProtobufContentview.MAX_NESTED_BYTES` (advisory constant, unused by the
decoding logic). -/
def MAX_NESTED_BYTES : Nat := 512 * 1024

/-- `ProtobufContentview.HARD_NESTED_BYTES_LIMIT` (8 MiB). -/
def HARD_NESTED_BYTES_LIMIT : Nat := 8 * 1024 * 1024

/-- `ProtobufContentview.CT_HINTS`. -/
def CT_HINTS : List (List Char) :=
  ["application/protobuf".data, "application/x-protobuf".data,
   "application/grpc+proto".data, "application/connect+proto".data,
   "+proto".data, "/proto".data]

/-- The slice of `mitmproxy.contentviews._api.Metadata` that this core
reads: `content_type`, `protobuf_definitions` (opaque, only its presence
matters) and `http_message.headers.get`. -/
structure Metadata where
  content_type : Option String := none
  protobuf_definitions : Option String := none
  http_headers : Option (String → Option String) := none

/-- `ProtobufContentview._ct_hint`. -/
def ct_hint (md : Metadata) : Bool :=
  let ct := py_lower (md.content_type.getD "").data
  (decide (ct ≠ []) && CT_HINTS.any (fun h => contains_sub ct h))
    || md.protobuf_definitions.isSome

/-- `ProtobufContentview._looks_like_protobuf`: parse succeeds, at least one
pair, and at least one field tag is `≤ 16384`. -/
def looks_like_protobuf (data : List Nat) : Bool :=
  if data.isEmpty || data.length < 2 then false
  else
    match parse_pairs data with
    | none => false
    | some pairs =>
      if pairs.isEmpty then false
      else decide (1 ≤ pairs.countP (fun p => p.field_tag ≤ 16384))

/-- The printable-fraction test from `ProtobufContentview._decode_likely_text`:
`sum(1 for c in s if c.isprintable()) / max(len(s), 1) >= 0.85`
(Python's float division modelled as exact rational arithmetic). -/
def printable_ratio_ok (pr : Char → Bool) (s : List Char) : Bool :=
  decide ((s.countP pr : ℚ) / ((max s.length 1 : Nat) : ℚ) ≥ 85 / 100)

/-- `t.startswith(c)` for one character. -/
def starts_with_char (t : List Char) (c : Char) : Bool :=
  match t with
  | [] => false
  | x :: _ => x = c

/-- `t.endswith(c)` for one character. -/
def ends_with_char (t : List Char) (c : Char) : Bool :=
  starts_with_char t.reverse c

/-- The JSON-shape test from `_decode_likely_text`:
`(t.startswith("\x7b") and t.endswith("\x7d")) or (t.startswith("[") and t.endswith("]"))`. -/
def json_braced (t : List Char) : Bool :=
  (starts_with_char t '{' && ends_with_char t '}')
    || (starts_with_char t '[' && ends_with_char t ']')

/-- The JWT-shape test from `_decode_likely_text`: exactly two `.` separators
and each of the three segments non-empty and made of alphanumerics, `-`, `_`. -/
def jwt_shaped (al : Char → Bool) (s : List Char) : Bool :=
  s.count '.' = 2 &&
    (List.splitOn '.' s).all
      (fun part => !part.isEmpty && part.all (fun ch => al ch || ch = '-' || ch = '_'))

/-- `ProtobufContentview._decode_likely_text`.  Returns the decoded text when
the body is classified as text, `none` otherwise. -/
def decode_likely_text (pr al : Char → Bool) (body : List Nat) : Option (List Char) :=
  if body.isEmpty then some []
  else
    match utf8_decode body with
    | none => none
    | some s =>
      if printable_ratio_ok pr s then some s
      else if json_braced (py_strip s) then some s
      else if s.contains '\n' || s.contains '\r' then some s
      else if jwt_shaped al s then some s
      else none

/-- Two's-complement reinterpretation of a 32-bit unsigned value
(`struct.unpack("<i", struct.pack("<I", u32))`). -/
def to_signed_32 (u : Nat) : Int :=
  if u < 2 ^ 31 then (u : Int) else (u : Int) - 2 ^ 32

/-- Two's-complement reinterpretation of a 64-bit unsigned value
(`struct.unpack("<q", struct.pack("<Q", u64))`). -/
def to_signed_64 (u : Nat) : Int :=
  if u < 2 ^ 63 then (u : Int) else (u : Int) - 2 ^ 64

/-- The ZigZag view computed for every varint field:
`sint = (u >> 1) ^ -(u & 1)` (Python semantics: on the non-negative `u`,
`>>`/`&` are floor-division/mod; the outer `^` is an XOR on signed
integers). -/
def py_sint (u : Nat) : Int :=
  Int.xor (Int.ofNat (u >>> 1)) (-(Int.ofNat (u &&& 1)))

/-- One decoded field record, mirroring the dict built per pair by
`ProtobufContentview._parse_message`: `field_tag` and `wire_type` plus the
per-wire-type value views.  (The additional `float32`/`float64` views of
fixed32/fixed64 fields are IEEE-754 reinterpretations of the same bits and
are not modelled.)  A length-delimited record carries `length` plus the
optional keys `utf8`, `message`, `bytes_hex_preview` exactly as the Python
dict does. -/
inductive Item where
  | varintItem (field_tag : Nat) (varint : Nat) (sint : Int)
  | bit32Item (field_tag : Nat) (u32 : Nat) (s32 : Int)
  | bit64Item (field_tag : Nat) (u64 : Nat) (s64 : Int)
  | lenItem (field_tag : Nat) (length : Nat) (utf8 : Option (List Char))
      (message : Option (List Item)) (bytes_hex_preview : Option (List Char))
  deriving Repr

mutual

/-- `ProtobufContentview._parse_message`: parse `data` as a message and build
the field records, recursing into plausible nested messages at `depth + 1`. -/
def parse_message (pr al : Char → Bool) (data : List Nat) (depth : Nat) :
    Option (List Item) :=
  match parse_pairs data with
  | none => none
  | some pairs => some (parse_items pr al pairs depth)
termination_by ((MAX_NESTED_DEPTH + 1 - depth) * 3 + 2, 0)

/-- The `for p in msg.pairs` loop of `_parse_message`. -/
def parse_items (pr al : Char → Bool) (pairs : List Pair) (depth : Nat) :
    List Item :=
  match pairs with
  | [] => []
  | p :: rest => parse_item pr al p depth :: parse_items pr al rest depth
termination_by ((MAX_NESTED_DEPTH + 1 - depth) * 3 + 1, pairs.length)

/-- The per-pair body of `_parse_message`'s loop. -/
def parse_item (pr al : Char → Bool) (p : Pair) (depth : Nat) : Item :=
  match p with
  | ⟨tag, .varintV u⟩ => .varintItem tag u (py_sint u)
  | ⟨tag, .bit32V u⟩ => .bit32Item tag u (to_signed_32 u)
  | ⟨tag, .bit64V u⟩ => .bit64Item tag u (to_signed_64 u)
  | ⟨tag, .lenV body⟩ =>
    match decode_likely_text pr al body with
    | some s => .lenItem tag body.length (some s) none none
    | none =>
      if h : depth < MAX_NESTED_DEPTH ∧ 0 < body.length ∧
          body.length ≤ HARD_NESTED_BYTES_LIMIT then
        if looks_like_protobuf body then
          match parse_message pr al body (depth + 1) with
          | some fields => .lenItem tag body.length none (some fields) none
          | none => .lenItem tag body.length none none (some (hex_preview body))
        else .lenItem tag body.length none none (some (hex_preview body))
      else .lenItem tag body.length none none (some (hex_preview body))
termination_by ((MAX_NESTED_DEPTH + 1 - depth) * 3, 0)

end

/-- `ProtobufContentview._parse`: top-level decode at depth 0. -/
def parse_top (pr al : Char → Bool) (data : List Nat) : Option (List Item) :=
  parse_message pr al data 0

/-- `ProtobufContentview.render_priority` (the component's `score`).
`0.7` and `-1` are exact in binary floating point, so `ℚ` models the return
value faithfully. -/
def render_priority (pr al : Char → Bool) (data : List Nat) (md : Metadata) : ℚ :=
  if data.isEmpty then -1
  else if !ct_hint md then -1
  else
    match parse_top pr al data with
    | some _ => 7 / 10
    | none => -1

/-! ## `ConnectProtobufContentview` (FrameUnwrapper), from
`src/mitmproxy/contentviews/_view_connect_protobuf.py`.

The decompression primitives (`mitmproxy.net.encoding.decode_*`), the text
codec used with `errors="backslashreplace"`, `json.loads`-plus-`yaml_dumps`
and `merge_repeated_keys`-plus-`yaml_dumps` are external collaborators
(spec §1/§6); they are passed in as the fields of `Collab`.  The content
view registry (`cv.registry`) is likewise a collaborator, passed as
`Registry`; a sub-renderer that raises is an `Except.error`. -/

/-- One parsed frame `(flag, length, payload)` as built by `_parse_frames`. -/
structure Frame where
  flag : Nat
  length : Nat
  payload : List Nat
  deriving DecidableEq, Repr

/-- The scanning loop of `ConnectProtobufContentview._parse_frames`:
while at least 5 bytes remain, read 1 flag byte and a 4-byte big-endian
length; stop (keeping earlier frames) if the declared length overruns the
remaining buffer. -/
def parse_frames_loop : List Nat → List Frame
  | f :: a :: b :: c :: d :: rest =>
    let len := be_bytes [a, b, c, d]
    if len ≤ rest.length then
      ⟨f, len, rest.take len⟩ :: parse_frames_loop (rest.drop len)
    else []
  | _ => []
termination_by l => l.length
decreasing_by
  simp only [List.length_cons, List.length_drop]
  omega

/-- `ConnectProtobufContentview._parse_frames`: raises `ValueError`
(modelled as `Except.error ()`) when no frame parses. -/
def parse_frames (data : List Nat) : Except Unit (List Frame) :=
  let frames := parse_frames_loop data
  if frames.isEmpty then .error () else .ok frames

/-- The header names consulted by `_preferred_algorithms`, in order. -/
def ENC_HEADER_NAMES : List String :=
  ["grpc-encoding", "connect-encoding", "connect-content-encoding", "content-encoding"]

/-- The supported-decoder set of `_preferred_algorithms`. -/
def SUPPORTED : List String := ["gzip", "deflate", "br", "zstd", "identity"]

/-- The default algorithm order of `_preferred_algorithms`. -/
def DEFAULT_ALGOS : List String := ["gzip", "br", "zstd", "deflate"]

/-- The loop body over one comma-separated part in `_preferred_algorithms`:
on the stripped part, `if part and part.lower() not in algos:
algos.append(part.lower())`. -/
def add_algo (acc2 : List String) (part : String) : List String :=
  let p := py_strip_s part
  if p ≠ "" ∧ py_lower_s p ∉ acc2 then acc2 ++ [py_lower_s p] else acc2

/-- The loop body over one header name in `_preferred_algorithms`: skip a
missing or falsy value, otherwise split it on commas and fold the parts in. -/
def add_header_algos (hget : String → Option String) (acc : List String)
    (name : String) : List String :=
  match hget name with
  | none => acc
  | some val => if val = "" then acc else (py_split_comma val).foldl add_algo acc

/-- `ConnectProtobufContentview._preferred_algorithms`. -/
def preferred_algorithms (md : Metadata) : List String :=
  let algos : List String :=
    match md.http_headers with
    | none => []
    | some hget => ENC_HEADER_NAMES.foldl (add_header_algos hget) []
  let ret := algos.filter (fun a => decide (a ∈ SUPPORTED))
  if ret = [] then DEFAULT_ALGOS else ret

/-- The four named decoders dispatched inside
`_decompress_with_algorithms` (everything but `identity`). -/
def CODECS : List String := ["gzip", "deflate", "br", "zstd"]

/-- The loop of `_decompress_with_algorithms`.  `dec` models the external
`encoding.decode_*` functions, keyed by algorithm name (`none` = raised).
The boolean accumulator records whether some attempt already failed
(`last_err`); an unknown name falls through without touching it. -/
def decompress_go (dec : String → List Nat → Option (List Nat)) (data : List Nat) :
    List String → Bool → Except Unit (List Nat)
  | [], lastErr => if lastErr then .error () else .ok data
  | algo :: rest, lastErr =>
    if algo = "identity" then .ok data
    else if algo ∈ CODECS then
      match dec algo data with
      | some r => .ok r
      | none => decompress_go dec data rest true
    else decompress_go dec data rest lastErr

/-- `ConnectProtobufContentview._decompress_with_algorithms`. -/
def decompress_with_algorithms (dec : String → List Nat → Option (List Nat))
    (data : List Nat) (algorithms : List String) : Except Unit (List Nat) :=
  decompress_go dec data algorithms false

/-- The `try/except` around decompression in `prettify` (identical in the
trailer and data branches): on any failure the original payload is kept. -/
def frame_content (dec : String → List Nat → Option (List Nat))
    (algos : List String) (compressed : Bool) (payload : List Nat) : List Nat :=
  if compressed then
    match decompress_with_algorithms dec payload algos with
    | .ok b => b
    | .error _ => payload
  else payload

/-- `ConnectProtobufContentview._is_connect_ct`. -/
def is_connect_ct (md : Metadata) : Bool :=
  contains_sub (py_lower (md.content_type.getD "").data) "application/connect".data

/-- The per-frame trailer/end-stream test in `prettify`:
`((flag & 0x80) != 0) if not is_connect else ((flag & 0x02) != 0)`. -/
def is_trailer_flag (md : Metadata) (flag : Nat) : Bool :=
  if is_connect_ct md then decide (flag &&& 0x02 ≠ 0) else decide (flag &&& 0x80 ≠ 0)

/-- The per-frame compression test in `prettify`: `(flag & 0x01) != 0`. -/
def is_compressed_flag (flag : Nat) : Bool :=
  decide (flag &&& 0x01 ≠ 0)

/-- The per-frame label in `prettify`. -/
def frame_label (md : Metadata) (flag : Nat) : String :=
  if is_connect_ct md && is_trailer_flag md flag then "endstream"
  else if is_trailer_flag md flag then "trailer"
  else "data"

/-- External collaborators of the frame unwrapper. -/
structure Collab where
  dec : String → List Nat → Option (List Nat)
  decode_lossy : List Nat → String
  json_to_yaml : String → Option String
  merged_to_yaml : List (String × String) → String

/-- The renderer registry collaborator: `registry["protobuf"]` (absent =
`KeyError`) and `registry.get_view`. -/
structure Registry where
  protobuf_view : Option (List Nat → Metadata → Except Unit String)
  get_view : List Nat → Metadata → (List Nat → Metadata → Except Unit String)

/-- `ln.split(":", 1)` then `(k.strip(), v.lstrip())`. -/
def split_colon (ln : String) : String × String :=
  let sp := ln.data.span (fun c => c ≠ ':')
  (py_strip_s (String.mk sp.1), py_lstrip_s (String.mk (sp.2.drop 1)))

/-- `ConnectProtobufContentview._parse_trailer_headers`. -/
def parse_trailer_headers (C : Collab) (text : String) : String :=
  let t := py_strip_s text
  let jsonAttempt : Option String :=
    if json_braced t.data then C.json_to_yaml t else none
  match jsonAttempt with
  | some y => y
  | none =>
    let lines := ((text.splitOn "\n").filter (fun ln => py_strip_s ln ≠ "")).map
      (fun ln => String.mk ((ln.data.dropWhile (fun c => c = '\r')).reverse.dropWhile
        (fun c => c = '\r') |>.reverse))
    if lines.all (fun ln => ln.data.contains ':') then
      C.merged_to_yaml (lines.map split_colon)
    else text

/-- Lowercase hex digits of `n` (most significant first). -/
def hex_digits (n : Nat) : List Char :=
  if n = 0 then [] else hex_digits (n / 16) ++ [Nat.digitChar (n % 16)]
decreasing_by exact Nat.div_lt_self (Nat.pos_of_ne_zero (by assumption)) (by omega)

/-- Python's `format(n, "02x")`. -/
def hex02 (n : Nat) : String :=
  let ds := if n = 0 then ['0'] else hex_digits n
  String.mk (if ds.length < 2 then '0' :: ds else ds)

/-- Python's `str` of a bool, as interpolated into the frame header line. -/
def py_bool_str (b : Bool) : String :=
  if b then "True" else "False"

/-- The body of `prettify`'s frame loop: one rendered block per frame
(1-based ordinal `i`). -/
def render_frame (C : Collab) (reg : Registry) (md : Metadata)
    (algos : List String) (i : Nat) (fr : Frame) : String :=
  let is_trailer := is_trailer_flag md fr.flag
  let is_compressed := is_compressed_flag fr.flag
  let headerLine :=
    "frame " ++ toString i ++ ": " ++ frame_label md fr.flag ++
    ", flags=0x" ++ hex02 fr.flag ++ ", compressed=" ++ py_bool_str is_compressed ++
    ", length=" ++ toString fr.length
  if is_trailer then
    let body := frame_content C.dec algos is_compressed fr.payload
    let trailer_text := C.decode_lossy body
    headerLine ++ "\n" ++ parse_trailer_headers C trailer_text
  else
    let content_bytes := frame_content C.dec algos is_compressed fr.payload
    let header2 := headerLine ++ ", uncompressed_length=" ++ toString content_bytes.length
    let subview :=
      match reg.protobuf_view with
      | some v => v
      | none => reg.get_view content_bytes md
    let rendered :=
      match subview content_bytes md with
      | .ok r => r
      | .error _ =>
        match reg.get_view content_bytes md content_bytes md with
        | .ok r2 => r2
        | .error _ => "bytes_hex_preview: " ++ String.mk (hex_preview content_bytes)
    header2 ++ "\n" ++ rendered

/-- The visual separator between frames. -/
def FRAME_SEP : String := "\n\n" ++ String.mk (List.replicate 40 '-') ++ "\n\n"

/-- `ConnectProtobufContentview.prettify`.  Raises (`Except.error`) exactly
when `_parse_frames` does; the candidate compression algorithms are computed
once, before the frame loop. -/
def connect_prettify (C : Collab) (reg : Registry) (data : List Nat)
    (md : Metadata) : Except Unit String :=
  match parse_frames data with
  | .error e => .error e
  | .ok frames =>
    let algos := preferred_algorithms md
    .ok (String.intercalate FRAME_SEP
      ((frames.enumFrom 1).map (fun p => render_frame C reg md algos p.1 p.2)))

/-! ## Observers and spec-side definitions

The definitions below restate properties in the words of the spec (for the
refinement-style claims) or observe the structures built above; they are
compared against the source-translated definitions by the theorems. -/

mutual

/-- Nesting depth of the `message` interpretation in one field record. -/
def item_msg_depth : Item → Nat
  | .lenItem _ _ _ (some fields) _ => 1 + items_msg_depth fields
  | _ => 0

/-- Nesting depth over a record list. -/
def items_msg_depth : List Item → Nat
  | [] => 0
  | i :: rest => max (item_msg_depth i) (items_msg_depth rest)

end

/-- Exactly one of three flags. -/
def exactly_one (a b c : Bool) : Bool :=
  (a && !b && !c) || (!a && b && !c) || (!a && !b && c)

mutual

/-- The payload-interpretation invariant (claim C2) for one record, checked
recursively through nested messages: a length-delimited record carries
exactly one of `utf8` / `message` / `bytes_hex_preview`. -/
def item_ok : Item → Bool
  | .lenItem _ _ u m h =>
    exactly_one u.isSome m.isSome h.isSome &&
      (match m with
       | some fields => items_ok fields
       | none => true)
  | _ => true

/-- `item_ok` over a record list. -/
def items_ok : List Item → Bool
  | [] => true
  | i :: rest => item_ok i && items_ok rest

end

/-- Standard ZigZag encoding of a signed integer
(`0, -1, 1, -2, 2, … ↦ 0, 1, 2, 3, 4, …`): `2*s` for `s ≥ 0`,
`2*(-s) - 1` for `s < 0`. -/
def zigzag_encode (s : Int) : Nat :=
  if 0 ≤ s then (2 * s).toNat else (2 * (-s) - 1).toNat

/-- Spec-side text condition of claim C4: UTF-8 decoding succeeds and the
printable fraction is ≥ 0.85, or the trimmed text is `(...)`-braced JSON-like,
or the text contains a line break, or it is JWT-shaped. -/
def spec_text_cond (pr al : Char → Bool) (body : List Nat) : Bool :=
  match utf8_decode body with
  | none => false
  | some s =>
    decide ((s.countP pr : ℚ) / (s.length : ℚ) ≥ 85 / 100)
      || json_braced (py_strip s)
      || s.contains '\n' || s.contains '\r'
      || jwt_shaped al s

/-- The 4-byte big-endian encoding of a frame length. -/
def be4 (n : Nat) : List Nat :=
  [n / 2 ^ 24 % 256, n / 2 ^ 16 % 256, n / 2 ^ 8 % 256, n % 256]

/-- Re-encode a frame as it appears on the wire: flag byte, 4-byte
big-endian length, payload. -/
def encode_frame (fr : Frame) : List Nat :=
  fr.flag :: be4 fr.length ++ fr.payload

/-- Re-encode a frame sequence. -/
def encode_frames (l : List Frame) : List Nat :=
  l.flatMap encode_frame

/-- A frame record whose fields are mutually consistent byte-level data. -/
def frame_wf (fr : Frame) : Prop :=
  fr.flag < 256 ∧ fr.length < 2 ^ 32 ∧ fr.payload.length = fr.length

/-- The declared length of the first frame header (claim C3's "first
declared length"). -/
def first_declared (data : List Nat) : Nat :=
  be_bytes ((data.drop 1).take 4)

/-- Claim C3's zero-frames condition: buffer shorter than one 5-byte header,
or the first declared length overruns the buffer. -/
def zero_frames_cond (data : List Nat) : Bool :=
  decide (data.length < 5) || decide (data.length < 5 + first_declared data)

/-- Whether a top-level call raised. -/
def is_error (e : Except Unit String) : Bool :=
  match e with
  | .error _ => true
  | .ok _ => false

/-- Spec-side decompression attempt of one candidate algorithm (claim C5):
`identity` yields the data unchanged, a supported codec delegates to the
external decoder, anything else is not an attempt. -/
def apply_algo (dec : String → List Nat → Option (List Nat)) (algo : String)
    (data : List Nat) : Option (List Nat) :=
  if algo = "identity" then some data
  else if algo ∈ CODECS then dec algo data
  else none

/-- Spec-side "first success" over the candidate list, in order. -/
def first_success (dec : String → List Nat → Option (List Nat))
    (data : List Nat) (algos : List String) : Option (List Nat) :=
  algos.findSome? (fun a => apply_algo dec a data)

/-- First-seen-order de-duplication (claim C6's words). -/
def dedup_first (l : List String) : List String :=
  l.foldl (fun acc t => if t ∈ acc then acc else acc ++ [t]) []

/-- Spec-side tokens of one header (claim C6): its value split on commas,
each part trimmed and lower-cased. -/
def spec_header_tokens (hget : String → Option String) (name : String) : List String :=
  match hget name with
  | none => []
  | some val => (py_split_comma val).map (fun x => py_lower_s (py_strip_s x))

/-- The tokens one header effectively contributes in the code's loop:
trimmed, lower-cased, with empty parts (and falsy values) dropped.  Used to
relate the code's fold to the spec-side pipeline. -/
def code_header_tokens (hget : String → Option String) (name : String) : List String :=
  match hget name with
  | none => []
  | some val =>
    if val = "" then []
    else ((py_split_comma val).map (fun x => py_lower_s (py_strip_s x))).filter
      (fun t => decide (t ≠ ""))

/-- Spec-side candidate-algorithm list of claim C6: scan the four header
names in order, split each value on commas, trim, lower-case, de-duplicate
preserving first-seen order, keep only supported values, and fall back to
the fixed default order when nothing survives. -/
def spec_preferred (md : Metadata) : List String :=
  let tokens : List String :=
    match md.http_headers with
    | none => []
    | some hget => ENC_HEADER_NAMES.flatMap (spec_header_tokens hget)
  let kept := (dedup_first tokens).filter (fun a => decide (a ∈ SUPPORTED))
  if kept = [] then DEFAULT_ALGOS else kept

/-! ## Helper lemmas -/

theorem decide_and_two_pow (n i : Nat) : decide (n &&& 2 ^ i ≠ 0) = n.testBit i := by
  rw [Nat.and_two_pow]
  cases h : n.testBit i
  · simp
  · have h2 : (2 : Nat) ^ i ≠ 0 := pow_ne_zero i (by norm_num)
    simp [h2]

/-! ## Claims -/

/-- Claim C10: a length-delimited field with empty body is always classified
as decoded text equal to the empty string; the nested-message and hex-preview
interpretations are never chosen for it. -/
theorem empty_len_body_is_text :
    ∀ (pr al : Char → Bool) (tag depth : Nat),
      parse_item pr al ⟨tag, .lenV []⟩ depth = .lenItem tag 0 (some []) none none := by
  intro pr al tag depth
  simp [parse_item, decode_likely_text]

/-- Claim C8: every decoded varint field record exposes both the unsigned
value `u` and the ZigZag view `(u >> 1) XOR -(u AND 1)`, and that view is
the inverse of standard ZigZag encoding on every 64-bit signed integer. -/
theorem varint_zigzag_views :
    (∀ (pr al : Char → Bool) (tag u depth : Nat),
      parse_item pr al ⟨tag, .varintV u⟩ depth = .varintItem tag u (py_sint u))
    ∧ (∀ s : Int, -(2 ^ 63) ≤ s → s < 2 ^ 63 → py_sint (zigzag_encode s) = s) := by
  constructor
  · intro pr al tag u depth
    simp [parse_item]
  · intro s h1 h2
    by_cases hs : 0 ≤ s
    · obtain ⟨k, rfl⟩ : ∃ k : Nat, s = (k : Int) := ⟨s.toNat, (Int.toNat_of_nonneg hs).symm⟩
      have hu : zigzag_encode (k : Int) = 2 * k := by
        unfold zigzag_encode
        rw [if_pos hs]
        omega
      rw [hu]
      unfold py_sint
      have e1 : (2 * k) >>> 1 = k := by
        rw [Nat.shiftRight_one]
        omega
      have e2 : (2 * k) &&& 1 = 0 := by
        rw [Nat.and_one_is_mod]
        omega
      rw [e1, e2]
      have e3 : -(Int.ofNat 0) = Int.ofNat 0 := rfl
      rw [e3]
      have e4 : Int.xor (Int.ofNat k) (Int.ofNat 0) = Int.ofNat (k ^^^ 0) := rfl
      rw [e4, Nat.xor_zero]
      rfl
    · push_neg at hs
      have hk : ∃ k : Nat, 1 ≤ k ∧ s = -(k : Int) :=
        ⟨(-s).toNat, by omega, by omega⟩
      obtain ⟨k, hk1, rfl⟩ := hk
      have hu : zigzag_encode (-(k : Int)) = 2 * k - 1 := by
        unfold zigzag_encode
        rw [if_neg (by omega)]
        omega
      rw [hu]
      unfold py_sint
      have e1 : (2 * k - 1) >>> 1 = k - 1 := by
        rw [Nat.shiftRight_one]
        omega
      have e2 : (2 * k - 1) &&& 1 = 1 := by
        rw [Nat.and_one_is_mod]
        omega
      rw [e1, e2]
      have e3 : -(Int.ofNat 1) = Int.negSucc 0 := rfl
      rw [e3]
      have e4 : Int.xor (Int.ofNat (k - 1)) (Int.negSucc 0) = Int.negSucc ((k - 1) ^^^ 0) := rfl
      rw [e4, Nat.xor_zero, Int.negSucc_eq]
      omega

/-- Witness for the ZigZag inverse at a concrete 64-bit signed integer. -/
theorem varint_zigzag_views_witness : py_sint (zigzag_encode (-3)) = -3 :=
  varint_zigzag_views.2 (-3) (by norm_num) (by norm_num)

/-- Claim C7: the frame classification bits — bit 1 marks end-stream for the
Connect family (content type containing `application/connect`), bit 7 marks
trailers otherwise, and bit 0 always marks compression. -/
theorem frame_flag_bits :
    ∀ (md : Metadata) (flag : Nat),
      is_trailer_flag md flag =
        (if is_connect_ct md then flag.testBit 1 else flag.testBit 7)
      ∧ is_compressed_flag flag = flag.testBit 0
      ∧ is_connect_ct md =
          contains_sub (py_lower (md.content_type.getD "").data) "application/connect".data := by
  intro md flag
  refine ⟨?_, ?_, rfl⟩
  · unfold is_trailer_flag
    by_cases hc : is_connect_ct md
    · rw [if_pos hc, if_pos hc]
      have : (0x02 : Nat) = 2 ^ 1 := rfl
      rw [this, decide_and_two_pow]
    · rw [if_neg hc, if_neg hc]
      have : (0x80 : Nat) = 2 ^ 7 := rfl
      rw [this, decide_and_two_pow]
  · unfold is_compressed_flag
    have : (0x01 : Nat) = 2 ^ 0 := rfl
    rw [this, decide_and_two_pow]

/-- Claim C9: the protobuf view's score never raises, returns the negative
sentinel `-1` exactly when the input is empty, the metadata carries no
content-type/format hint, or the trial decode fails, and returns the fixed
positive score `0.7` in every other case. -/
theorem score_sentinel_iff :
    ∀ (pr al : Char → Bool) (data : List Nat) (md : Metadata),
      (render_priority pr al data md = -1 ∨ render_priority pr al data md = 7 / 10)
      ∧ (render_priority pr al data md = -1 ↔
          (data = [] ∨ ct_hint md = false ∨ parse_top pr al data = none)) := by
  intro pr al data md
  unfold render_priority
  by_cases h1 : data.isEmpty
  · rw [if_pos h1]
    exact ⟨Or.inl rfl, by simp [List.isEmpty_iff.mp h1]⟩
  · rw [if_neg h1]
    by_cases h2 : ct_hint md
    · rw [if_neg (by simp [h2])]
      cases h3 : parse_top pr al data with
      | none =>
        refine ⟨Or.inl rfl, by simp [h3]⟩
      | some items =>
        refine ⟨Or.inr rfl, ?_⟩
        constructor
        · intro hbad
          exact absurd hbad (by norm_num)
        · intro hcase
          rcases hcase with hc | hc | hc
          · exact absurd hc (by simpa using h1)
          · rw [h2] at hc; exact absurd hc (by simp)
          · exact absurd hc (by simp)
    · rw [if_pos (by simpa using h2)]
      refine ⟨Or.inl rfl, ?_⟩
      simp only [true_iff]
      exact Or.inr (Or.inl (by simpa using h2))

/-- Witness: the sentinel at a concrete input (empty buffer). -/
theorem score_sentinel_iff_witness :
    render_priority ascii_printable ascii_alnum [] ⟨none, none, none⟩ = -1 :=
  (score_sentinel_iff ascii_printable ascii_alnum [] ⟨none, none, none⟩).2.mpr
    (Or.inl rfl)

/-- Claim C4 fails on the empty body: the code classifies the empty
length-delimited body as text (the empty string) although UTF-8 decoding
succeeds with none of the four acceptance conditions holding. -/
theorem text_iff_counterexample :
    (decode_likely_text ascii_printable ascii_alnum []).isSome = true
    ∧ spec_text_cond ascii_printable ascii_alnum [] = false := by
  constructor
  · rfl
  · unfold spec_text_cond
    rw [show utf8_decode [] = some [] from rfl]
    have hb : json_braced (py_strip ([] : List Char)) = false := rfl
    have hc : (([] : List Char).contains '\n' || ([] : List Char).contains '\r') = false := rfl
    have hd : jwt_shaped ascii_alnum [] = false := rfl
    simp only [hb, hc, hd, List.countP_nil, List.length_nil, Nat.cast_zero,
      Bool.or_false, Bool.false_or]
    norm_num

/-- Claim C4 as amended: a length-delimited body is classified as text iff it
is empty (giving the empty string) or UTF-8 decoding succeeds and at least one
of {printable fraction ≥ 0.85, trimmed `(...)`-bracketed JSON shape, line
break present, JWT shape} holds; a UTF-8 decode failure disqualifies every
non-empty body. -/
theorem text_iff_amended :
    ∀ (pr al : Char → Bool) (body : List Nat),
      (decode_likely_text pr al body).isSome
        = (body.isEmpty || spec_text_cond pr al body) := by
  intro pr al body
  cases body with
  | nil => rfl
  | cons b rest =>
    unfold decode_likely_text spec_text_cond
    rw [if_neg (show ¬((b :: rest).isEmpty = true) from by simp)]
    rw [show (b :: rest).isEmpty = false from rfl]
    simp only [Bool.false_or]
    cases hu : utf8_decode (b :: rest) with
    | none => rfl
    | some s =>
      dsimp only
      unfold printable_ratio_ok
      have hA_eq : decide ((s.countP pr : ℚ) / ((max s.length 1 : Nat) : ℚ) ≥ 85 / 100)
          = decide ((s.countP pr : ℚ) / (s.length : ℚ) ≥ 85 / 100) := by
        rcases eq_or_ne s [] with rfl | hs
        · norm_num
        · have hm : max s.length 1 = s.length := by
            have := List.length_pos.mpr hs
            omega
          rw [hm]
      rw [hA_eq]
      cases hA : decide ((s.countP pr : ℚ) / (s.length : ℚ) ≥ 85 / 100) <;>
        cases hB : json_braced (py_strip s) <;>
          cases hC1 : s.contains '\n' <;>
            cases hC2 : s.contains '\r' <;>
              cases hD : jwt_shaped al s <;>
                simp [hA, hB, hC1, hC2, hD]

theorem decompress_go_spec (dec : String → List Nat → Option (List Nat)) (data : List Nat) :
    ∀ (algos : List String) (lastErr : Bool),
      decompress_go dec data algos lastErr =
        match first_success dec data algos with
        | some r => .ok r
        | none =>
          if (algos.any fun a => decide (a ∈ CODECS)) || lastErr then .error ()
          else .ok data := by
  intro algos
  induction algos with
  | nil =>
    intro lastErr
    cases lastErr <;> simp [decompress_go, first_success]
  | cons a rest ih =>
    intro lastErr
    by_cases hid : a = "identity"
    · subst hid
      simp [decompress_go, first_success, apply_algo]
    · by_cases hcod : a ∈ CODECS
      · cases hdec : dec a data with
        | some r =>
          simp [decompress_go, hid, hcod, first_success, apply_algo, hdec]
        | none =>
          rw [show decompress_go dec data (a :: rest) lastErr
              = decompress_go dec data rest true from by
            simp [decompress_go, hid, hcod, hdec]]
          rw [ih true]
          simp only [first_success, List.findSome?_cons, apply_algo, if_neg hid,
            if_pos hcod, hdec, List.any_cons]
          cases hfs : List.findSome? (fun a => apply_algo dec a data) rest <;>
            simp [first_success, hfs, hcod]
      · rw [show decompress_go dec data (a :: rest) lastErr
            = decompress_go dec data rest lastErr from by
          simp [decompress_go, hid, hcod]]
        rw [ih lastErr]
        simp only [first_success, List.findSome?_cons, apply_algo, if_neg hid,
          if_neg hcod, List.any_cons]
        cases hfs : List.findSome? (fun a => apply_algo dec a data) rest <;>
          simp [first_success, hfs, hcod]

/-- Claim C5: for a compressed frame the candidate algorithms are tried in
order with the first success used; if every candidate fails the original
still-compressed payload is kept; and a decompression failure is never
raised out of the top-level prettify (which errors only when framing parses
zero frames). -/
theorem decompression_first_success :
    (∀ (dec : String → List Nat → Option (List Nat)) (algos : List String)
        (payload : List Nat),
      frame_content dec algos true payload = (first_success dec payload algos).getD payload)
    ∧ (∀ (dec : String → List Nat → Option (List Nat)) (data : List Nat)
        (algos : List String),
      decompress_with_algorithms dec data algos =
        match first_success dec data algos with
        | some r => .ok r
        | none =>
          if algos.any (fun a => decide (a ∈ CODECS)) then .error () else .ok data)
    ∧ (∀ (C : Collab) (reg : Registry) (data : List Nat) (md : Metadata),
      is_error (connect_prettify C reg data md) = (parse_frames_loop data).isEmpty) := by
  refine ⟨?_, ?_, ?_⟩
  · intro dec algos payload
    unfold frame_content decompress_with_algorithms
    rw [decompress_go_spec]
    cases h : first_success dec payload algos with
    | some r => simp
    | none =>
      by_cases hany : (algos.any fun a => decide (a ∈ CODECS)) = true <;>
        simp [hany]
  · intro dec data algos
    unfold decompress_with_algorithms
    rw [decompress_go_spec]
    cases first_success dec data algos <;> simp
  · intro C reg data md
    unfold connect_prettify parse_frames is_error
    by_cases h : (parse_frames_loop data).isEmpty <;> simp [h]

/-! Machinery for claim C6. -/

/-- First-seen-order de-duplication of `l` into an accumulator. -/
def dedup_into (acc : List String) (l : List String) : List String :=
  l.foldl (fun a t => if t ∈ a then a else a ++ [t]) acc

theorem dedup_first_eq (l : List String) : dedup_first l = dedup_into [] l := rfl

theorem dedup_into_append (acc l1 l2 : List String) :
    dedup_into acc (l1 ++ l2) = dedup_into (dedup_into acc l1) l2 :=
  List.foldl_append _ _ _ _

theorem dedup_into_cons (acc : List String) (t : String) (l : List String) :
    dedup_into acc (t :: l) = dedup_into (if t ∈ acc then acc else acc ++ [t]) l := rfl

theorem py_lower_s_eq_empty (p : String) : (py_lower_s p = "") ↔ (p = "") := by
  constructor
  · intro h
    have hd : p.data.map Char.toLower = ([] : List Char) := congrArg String.data h
    have hnil : p.data = [] := List.map_eq_nil_iff.mp hd
    exact String.ext hnil
  · rintro rfl
    rfl

theorem add_algo_eq (acc : List String) (x : String) :
    add_algo acc x =
      if py_strip_s x ≠ "" ∧ py_lower_s (py_strip_s x) ∉ acc
      then acc ++ [py_lower_s (py_strip_s x)] else acc := rfl

theorem inner_loop_eq (parts : List String) : ∀ acc : List String,
    parts.foldl add_algo acc
    = dedup_into acc
        ((parts.map (fun x => py_lower_s (py_strip_s x))).filter
          (fun t => decide (t ≠ ""))) := by
  induction parts with
  | nil => intro acc; rfl
  | cons x xs ih =>
    intro acc
    rw [List.foldl_cons, List.map_cons, List.filter_cons, ih, add_algo_eq]
    by_cases hp : py_strip_s x = ""
    · rw [if_neg (show ¬(py_strip_s x ≠ "" ∧ py_lower_s (py_strip_s x) ∉ acc) from by
        simp [hp])]
      rw [if_neg (show ¬(decide (py_lower_s (py_strip_s x) ≠ "") = true) from by
        simp [hp, py_lower_s_eq_empty])]
    · have h1 : py_lower_s (py_strip_s x) ≠ "" := fun hc =>
        hp ((py_lower_s_eq_empty _).mp hc)
      rw [if_pos (show decide (py_lower_s (py_strip_s x) ≠ "") = true from by simp [h1])]
      by_cases hm : py_lower_s (py_strip_s x) ∈ acc
      · rw [if_neg (show ¬(py_strip_s x ≠ "" ∧ py_lower_s (py_strip_s x) ∉ acc) from by
          simp [hm])]
        rw [dedup_into_cons, if_pos hm]
      · rw [if_pos (show py_strip_s x ≠ "" ∧ py_lower_s (py_strip_s x) ∉ acc from ⟨hp, hm⟩)]
        rw [dedup_into_cons, if_neg hm]

theorem dedup_into_filter (l : List String) : ∀ a1 a2 : List String,
    a1 = a2.filter (fun t => decide (t ≠ "")) →
    dedup_into a1 (l.filter (fun t => decide (t ≠ "")))
      = (dedup_into a2 l).filter (fun t => decide (t ≠ "")) := by
  induction l with
  | nil =>
    intro a1 a2 h
    simpa [dedup_into] using h
  | cons t ts ih =>
    intro a1 a2 h
    rw [List.filter_cons]
    by_cases ht : t = ""
    · subst ht
      rw [if_neg (by simp)]
      rw [show dedup_into a2 ("" :: ts) = dedup_into (if "" ∈ a2 then a2 else a2 ++ [""]) ts
          from rfl]
      apply ih
      by_cases hm : ("" : String) ∈ a2
      · rw [if_pos hm]; exact h
      · rw [if_neg hm, List.filter_append, ← h]
        simp
    · have hq : decide (t ≠ "") = true := by simp [ht]
      rw [if_pos hq]
      rw [show dedup_into a1 (t :: ts.filter (fun t => decide (t ≠ "")))
          = dedup_into (if t ∈ a1 then a1 else a1 ++ [t])
              (ts.filter (fun t => decide (t ≠ ""))) from rfl]
      rw [show dedup_into a2 (t :: ts) = dedup_into (if t ∈ a2 then a2 else a2 ++ [t]) ts
          from rfl]
      apply ih
      have hmem : t ∈ a1 ↔ t ∈ a2 := by
        rw [h, List.mem_filter]
        simp [ht]
      by_cases hm : t ∈ a2
      · rw [if_pos (hmem.mpr hm), if_pos hm]; exact h
      · rw [if_neg (fun hc => hm (hmem.mp hc)), if_neg hm, List.filter_append, ← h]
        simp [ht]

theorem outer_loop_eq (hget : String → Option String) (names : List String) :
    ∀ acc : List String,
      names.foldl (add_header_algos hget) acc
        = dedup_into acc (names.flatMap (code_header_tokens hget)) := by
  induction names with
  | nil => intro acc; rfl
  | cons n ns ih =>
    intro acc
    rw [List.foldl_cons, List.flatMap_cons, dedup_into_append]
    cases hn : hget n with
    | none =>
      rw [show add_header_algos hget acc n = acc from by
        unfold add_header_algos; rw [hn]]
      rw [show code_header_tokens hget n = [] from by
        unfold code_header_tokens; rw [hn]]
      exact ih acc
    | some val =>
      by_cases hv : val = ""
      · rw [show add_header_algos hget acc n = acc from by
          unfold add_header_algos; rw [hn]; exact if_pos hv]
        rw [show code_header_tokens hget n = [] from by
          unfold code_header_tokens; rw [hn]; exact if_pos hv]
        exact ih acc
      · rw [show add_header_algos hget acc n = (py_split_comma val).foldl add_algo acc from by
          unfold add_header_algos; rw [hn]; exact if_neg hv]
        rw [show code_header_tokens hget n
            = ((py_split_comma val).map (fun x => py_lower_s (py_strip_s x))).filter
              (fun t => decide (t ≠ "")) from by
          unfold code_header_tokens; rw [hn]; exact if_neg hv]
        rw [inner_loop_eq]
        exact ih _

theorem tokens_filter_eq (hget : String → Option String) (names : List String) :
    names.flatMap (code_header_tokens hget)
      = (names.flatMap (spec_header_tokens hget)).filter (fun t => decide (t ≠ "")) := by
  induction names with
  | nil => rfl
  | cons n ns ih =>
    rw [List.flatMap_cons, List.flatMap_cons, List.filter_append, ih]
    congr 1
    cases hn : hget n with
    | none =>
      rw [show code_header_tokens hget n = [] from by
        unfold code_header_tokens; rw [hn]]
      rw [show spec_header_tokens hget n = [] from by
        unfold spec_header_tokens; rw [hn]]
      rfl
    | some val =>
      rw [show spec_header_tokens hget n
          = (py_split_comma val).map (fun x => py_lower_s (py_strip_s x)) from by
        unfold spec_header_tokens; rw [hn]]
      by_cases hv : val = ""
      · subst hv
        rw [show code_header_tokens hget n = [] from by
          unfold code_header_tokens; rw [hn]; exact if_pos rfl]
        rfl
      · rw [show code_header_tokens hget n
            = ((py_split_comma val).map (fun x => py_lower_s (py_strip_s x))).filter
              (fun t => decide (t ≠ "")) from by
          unfold code_header_tokens; rw [hn]; exact if_neg hv]

/-- Claim C6: the candidate compression-algorithm list is built once per
prettify call by scanning the four header names in order, splitting on
commas, trimming, lower-casing, de-duplicating in first-seen order and
keeping only supported values, with the fixed default `[gzip, br, zstd,
deflate]` when no header contributes a supported algorithm. -/
theorem preferred_algorithms_spec : ∀ md : Metadata,
    preferred_algorithms md = spec_preferred md := by
  intro md
  unfold preferred_algorithms spec_preferred
  cases md.http_headers with
  | none => rfl
  | some hget =>
    dsimp only
    rw [outer_loop_eq, tokens_filter_eq]
    rw [dedup_into_filter _ [] [] rfl]
    rw [← dedup_first_eq]
    rw [List.filter_filter]
    have hpred :
        (fun a => decide (a ∈ SUPPORTED) && decide (a ≠ ""))
          = (fun a => decide (a ∈ SUPPORTED)) := by
      funext a
      by_cases ha : a ∈ SUPPORTED
      · have hne : a ≠ "" := by
          simp only [SUPPORTED, List.mem_cons, List.mem_singleton] at ha
          rcases ha with rfl | rfl | rfl | rfl | rfl | h
          · simp
          · simp
          · simp
          · simp
          · simp
          · simp at h
        simp [ha, hne]
      · simp [ha]
    rw [hpred]

/-! Machinery for claim C3. -/

theorem parse_frames_loop_cons5 (f a b c d : Nat) (rest : List Nat) :
    parse_frames_loop (f :: a :: b :: c :: d :: rest)
      = (if be_bytes [a, b, c, d] ≤ rest.length
         then ⟨f, be_bytes [a, b, c, d], rest.take (be_bytes [a, b, c, d])⟩ ::
           parse_frames_loop (rest.drop (be_bytes [a, b, c, d]))
         else []) := by
  rw [parse_frames_loop.eq_def]

theorem parse_frames_loop_short (x : List Nat)
    (hx : ∀ (f a b c d : Nat) (rest : List Nat), x ≠ f :: a :: b :: c :: d :: rest) :
    parse_frames_loop x = [] := by
  rcases x with _ | ⟨f, _ | ⟨a, _ | ⟨b, _ | ⟨c, _ | ⟨d, rest⟩⟩⟩⟩⟩
  · rw [parse_frames_loop.eq_def]
  · rw [parse_frames_loop.eq_def]
  · rw [parse_frames_loop.eq_def]
  · rw [parse_frames_loop.eq_def]
  · rw [parse_frames_loop.eq_def]
  · exact absurd rfl (hx f a b c d rest)

theorem loop_all_lengths : ∀ data : List Nat,
    (parse_frames_loop data).all (fun fr => fr.payload.length == fr.length) = true := by
  intro data
  induction data using parse_frames_loop.induct with
  | case1 f a b c d rest len hle ih =>
    rw [parse_frames_loop_cons5, if_pos hle, List.all_cons, ih]
    simp [List.length_take, Nat.min_eq_left hle]
  | case2 f a b c d rest len hle =>
    rw [parse_frames_loop_cons5, if_neg hle]
    rfl
  | case3 x hx =>
    rw [parse_frames_loop_short x (fun f a b c d rest hc => hx f a b c d rest hc)]
    rfl

theorem loop_isEmpty_eq : ∀ data : List Nat,
    (parse_frames_loop data).isEmpty = zero_frames_cond data := by
  intro data
  rcases data with _ | ⟨f, _ | ⟨a, _ | ⟨b, _ | ⟨c, _ | ⟨d, rest⟩⟩⟩⟩⟩
  · rw [parse_frames_loop_short _ (by intro _ _ _ _ _ _ h; cases h)]; rfl
  · rw [parse_frames_loop_short _ (by intro _ _ _ _ _ _ h; cases h)]; rfl
  · rw [parse_frames_loop_short _ (by intro _ _ _ _ _ _ h; cases h)]; rfl
  · rw [parse_frames_loop_short _ (by intro _ _ _ _ _ _ h; cases h)]; rfl
  · rw [parse_frames_loop_short _ (by intro _ _ _ _ _ _ h; cases h)]; rfl
  · rw [parse_frames_loop_cons5]
    unfold zero_frames_cond first_declared
    rw [show ((f :: a :: b :: c :: d :: rest).drop 1).take 4 = [a, b, c, d] from rfl]
    by_cases hle : be_bytes [a, b, c, d] ≤ rest.length
    · rw [if_pos hle]
      rw [show (⟨f, be_bytes [a, b, c, d], rest.take (be_bytes [a, b, c, d])⟩ ::
          parse_frames_loop (rest.drop (be_bytes [a, b, c, d]))).isEmpty = false from rfl]
      have h5 : (f :: a :: b :: c :: d :: rest).length = rest.length + 5 := by
        simp [List.length_cons]
      rw [h5]
      have d1 : decide (rest.length + 5 < 5) = false := by simp
      have d2 : decide (rest.length + 5 < 5 + be_bytes [a, b, c, d]) = false := by
        simp; omega
      rw [d1, d2]
      rfl
    · rw [if_neg hle]
      have h5 : (f :: a :: b :: c :: d :: rest).length = rest.length + 5 := by
        simp [List.length_cons]
      rw [h5]
      have d2 : decide (rest.length + 5 < 5 + be_bytes [a, b, c, d]) = true := by
        simp; omega
      rw [d2]
      simp

theorem be_bytes_be4 (n : Nat) (h : n < 2 ^ 32) : be_bytes (be4 n) = n := by
  unfold be_bytes be4
  simp only [List.foldl_cons, List.foldl_nil]
  norm_num at h ⊢
  omega

theorem loop_encode_append : ∀ (F : List Frame) (tail : List Nat),
    (∀ fr ∈ F, frame_wf fr) →
    parse_frames_loop (encode_frames F ++ tail) = F ++ parse_frames_loop tail := by
  intro F
  induction F with
  | nil => intro tail _; rw [show encode_frames [] = [] from rfl, List.nil_append,
      List.nil_append]
  | cons fr F' ih =>
    intro tail hwf
    obtain ⟨fl, ln, pl⟩ := fr
    obtain ⟨hflag, hlen, hpay⟩ := hwf ⟨fl, ln, pl⟩ (List.mem_cons_self _ _)
    simp only at hpay
    rw [show encode_frames (⟨fl, ln, pl⟩ :: F') = encode_frame ⟨fl, ln, pl⟩ ++ encode_frames F'
      from rfl]
    rw [List.append_assoc]
    rw [show encode_frame ⟨fl, ln, pl⟩ ++ (encode_frames F' ++ tail)
        = fl :: (ln / 2 ^ 24 % 256) :: (ln / 2 ^ 16 % 256) :: (ln / 2 ^ 8 % 256) ::
          (ln % 256) :: (pl ++ (encode_frames F' ++ tail)) from rfl]
    rw [parse_frames_loop_cons5]
    have hbe : be_bytes [ln / 2 ^ 24 % 256, ln / 2 ^ 16 % 256, ln / 2 ^ 8 % 256, ln % 256]
        = ln := be_bytes_be4 ln hlen
    rw [hbe]
    have hle : ln ≤ (pl ++ (encode_frames F' ++ tail)).length := by
      rw [List.length_append, hpay]
      omega
    rw [if_pos hle]
    rw [show (pl ++ (encode_frames F' ++ tail)).take ln = pl from by
      rw [← hpay]; exact List.take_left pl _]
    rw [show (pl ++ (encode_frames F' ++ tail)).drop ln = encode_frames F' ++ tail from by
      rw [← hpay]; exact List.drop_left pl _]
    rw [ih tail (fun fr2 hfr2 => hwf fr2 (List.mem_cons_of_mem _ hfr2))]
    rfl

/-- Claim C3: `prettify` raises its not-framed failure exactly when zero
complete frames parse from offset 0 (buffer shorter than a 5-byte header, or
the first declared length overrunning the buffer); every parsed frame's
payload has exactly its declared length; and a trailing truncated frame
stops the scan without raising, keeping exactly the previously parsed
complete frames. -/
theorem framing_error_and_truncation :
    (∀ (C : Collab) (reg : Registry) (data : List Nat) (md : Metadata),
      is_error (connect_prettify C reg data md) = zero_frames_cond data)
    ∧ (∀ data : List Nat,
      (parse_frames_loop data).all (fun fr => fr.payload.length == fr.length) = true)
    ∧ (∀ (F : List Frame) (tail : List Nat), (∀ fr ∈ F, frame_wf fr) →
      parse_frames_loop (encode_frames F ++ tail) = F ++ parse_frames_loop tail) := by
  refine ⟨?_, loop_all_lengths, loop_encode_append⟩
  intro C reg data md
  rw [← loop_isEmpty_eq]
  unfold connect_prettify parse_frames is_error
  by_cases h : (parse_frames_loop data).isEmpty <;> simp [h]

/-- Witness for claim C3's truncation clause: one complete frame followed by
a 4-byte (truncated) header parses to exactly the complete frame. -/
theorem framing_error_and_truncation_witness :
    parse_frames_loop (encode_frames [⟨0, 3, [1, 2, 3]⟩] ++ [0, 0, 0, 0])
      = [⟨0, 3, [1, 2, 3]⟩] ++ parse_frames_loop [0, 0, 0, 0] :=
  framing_error_and_truncation.2.2 [⟨0, 3, [1, 2, 3]⟩] [0, 0, 0, 0]
    (by
      intro fr hfr
      rw [List.mem_singleton] at hfr
      subst hfr
      exact ⟨by norm_num, by norm_num, rfl⟩)

/-! Machinery for claims C1 and C2. -/

theorem parse_item_varint {pr al : Char → Bool} {tag u depth : Nat} :
    parse_item pr al ⟨tag, .varintV u⟩ depth = .varintItem tag u (py_sint u) := by
  simp [parse_item]

theorem parse_item_bit32 {pr al : Char → Bool} {tag u depth : Nat} :
    parse_item pr al ⟨tag, .bit32V u⟩ depth = .bit32Item tag u (to_signed_32 u) := by
  simp [parse_item]

theorem parse_item_bit64 {pr al : Char → Bool} {tag u depth : Nat} :
    parse_item pr al ⟨tag, .bit64V u⟩ depth = .bit64Item tag u (to_signed_64 u) := by
  simp [parse_item]

theorem parse_item_len_text {pr al : Char → Bool} {tag depth : Nat} {body : List Nat}
    {s : List Char} (hdt : decode_likely_text pr al body = some s) :
    parse_item pr al ⟨tag, .lenV body⟩ depth = .lenItem tag body.length (some s) none none := by
  simp only [parse_item]
  rw [hdt]

theorem parse_item_len_hex_noguard {pr al : Char → Bool} {tag depth : Nat} {body : List Nat}
    (hdt : decode_likely_text pr al body = none)
    (hg : ¬(depth < MAX_NESTED_DEPTH ∧ 0 < body.length ∧
      body.length ≤ HARD_NESTED_BYTES_LIMIT)) :
    parse_item pr al ⟨tag, .lenV body⟩ depth
      = .lenItem tag body.length none none (some (hex_preview body)) := by
  simp only [parse_item]
  rw [hdt]
  exact dif_neg hg

theorem parse_item_len_hex_nolook {pr al : Char → Bool} {tag depth : Nat} {body : List Nat}
    (hdt : decode_likely_text pr al body = none)
    (hg : depth < MAX_NESTED_DEPTH ∧ 0 < body.length ∧
      body.length ≤ HARD_NESTED_BYTES_LIMIT)
    (hlp : looks_like_protobuf body = false) :
    parse_item pr al ⟨tag, .lenV body⟩ depth
      = .lenItem tag body.length none none (some (hex_preview body)) := by
  simp only [parse_item]
  rw [hdt]
  dsimp only
  rw [dif_pos hg, hlp]
  rfl

theorem parse_item_len_msg {pr al : Char → Bool} {tag depth : Nat} {body : List Nat}
    {fields : List Item} (hdt : decode_likely_text pr al body = none)
    (hg : depth < MAX_NESTED_DEPTH ∧ 0 < body.length ∧
      body.length ≤ HARD_NESTED_BYTES_LIMIT)
    (hlp : looks_like_protobuf body = true)
    (hpm : parse_message pr al body (depth + 1) = some fields) :
    parse_item pr al ⟨tag, .lenV body⟩ depth
      = .lenItem tag body.length none (some fields) none := by
  simp only [parse_item]
  rw [hdt]
  try dsimp only
  rw [dif_pos hg, hlp]
  try dsimp only
  rw [hpm]
  rfl

theorem parse_item_len_msgfail {pr al : Char → Bool} {tag depth : Nat} {body : List Nat}
    (hdt : decode_likely_text pr al body = none)
    (hg : depth < MAX_NESTED_DEPTH ∧ 0 < body.length ∧
      body.length ≤ HARD_NESTED_BYTES_LIMIT)
    (hlp : looks_like_protobuf body = true)
    (hpm : parse_message pr al body (depth + 1) = none) :
    parse_item pr al ⟨tag, .lenV body⟩ depth
      = .lenItem tag body.length none none (some (hex_preview body)) := by
  simp only [parse_item]
  rw [hdt]
  try dsimp only
  rw [dif_pos hg, hlp]
  try dsimp only
  rw [hpm]
  rfl

theorem items_level (pr al : Char → Bool) (depth n : Nat)
    (hitem : ∀ p : Pair, item_ok (parse_item pr al p depth) = true ∧
      item_msg_depth (parse_item pr al p depth) ≤ n) :
    ∀ pairs : List Pair, items_ok (parse_items pr al pairs depth) = true ∧
      items_msg_depth (parse_items pr al pairs depth) ≤ n := by
  intro pairs
  induction pairs with
  | nil =>
    rw [show parse_items pr al [] depth = [] from by simp [parse_items]]
    exact ⟨by simp [items_ok], by simp [items_msg_depth]⟩
  | cons p rest ih =>
    rw [show parse_items pr al (p :: rest) depth
        = parse_item pr al p depth :: parse_items pr al rest depth from by
      simp [parse_items]]
    constructor
    · rw [show items_ok (parse_item pr al p depth :: parse_items pr al rest depth)
          = (item_ok (parse_item pr al p depth) && items_ok (parse_items pr al rest depth))
          from by simp [items_ok]]
      rw [(hitem p).1, ih.1]
      rfl
    · rw [show items_msg_depth (parse_item pr al p depth :: parse_items pr al rest depth)
          = max (item_msg_depth (parse_item pr al p depth))
              (items_msg_depth (parse_items pr al rest depth)) from by
        simp [items_msg_depth]]
      exact Nat.max_le.mpr ⟨(hitem p).2, ih.2⟩

theorem item_inv : ∀ k depth, MAX_NESTED_DEPTH - depth ≤ k →
    ∀ (pr al : Char → Bool) (p : Pair),
      item_ok (parse_item pr al p depth) = true ∧
      item_msg_depth (parse_item pr al p depth) ≤ MAX_NESTED_DEPTH - depth := by
  intro k
  induction k using Nat.strong_induction_on with
  | _ k ihk =>
    intro depth hd pr al p
    obtain ⟨tag, v⟩ := p
    cases v with
    | varintV u =>
      rw [parse_item_varint]
      exact ⟨by simp [item_ok], by simp [item_msg_depth]⟩
    | bit32V u =>
      rw [parse_item_bit32]
      exact ⟨by simp [item_ok], by simp [item_msg_depth]⟩
    | bit64V u =>
      rw [parse_item_bit64]
      exact ⟨by simp [item_ok], by simp [item_msg_depth]⟩
    | lenV body =>
      cases hdt : decode_likely_text pr al body with
      | some s =>
        rw [parse_item_len_text hdt]
        exact ⟨by simp [item_ok, exactly_one], by simp [item_msg_depth]⟩
      | none =>
        by_cases hg : depth < MAX_NESTED_DEPTH ∧ 0 < body.length ∧
            body.length ≤ HARD_NESTED_BYTES_LIMIT
        · by_cases hlp : looks_like_protobuf body = true
          · cases hpm : parse_message pr al body (depth + 1) with
            | none =>
              rw [parse_item_len_msgfail hdt hg hlp hpm]
              exact ⟨by simp [item_ok, exactly_one], by simp [item_msg_depth]⟩
            | some fields =>
              rw [parse_item_len_msg hdt hg hlp hpm]
              have hfields : ∃ pairs, parse_pairs body = some pairs ∧
                  fields = parse_items pr al pairs (depth + 1) := by
                rw [parse_message.eq_def] at hpm
                cases hpp : parse_pairs body with
                | none => rw [hpp] at hpm; exact absurd hpm (by simp)
                | some pairs =>
                  rw [hpp] at hpm
                  simp only [Option.some.injEq] at hpm
                  exact ⟨pairs, rfl, hpm.symm⟩
              obtain ⟨pairs, hpp, rfl⟩ := hfields
              have hdep : depth < MAX_NESTED_DEPTH := hg.1
              have hsub := items_level pr al (depth + 1) (MAX_NESTED_DEPTH - (depth + 1))
                (fun p2 => ihk (MAX_NESTED_DEPTH - (depth + 1)) (by omega) (depth + 1)
                  (Nat.le_refl _) pr al p2) pairs
              constructor
              · rw [show item_ok (Item.lenItem tag body.length none
                    (some (parse_items pr al pairs (depth + 1))) none)
                    = (exactly_one false true false &&
                      items_ok (parse_items pr al pairs (depth + 1))) from by
                  simp [item_ok]]
                rw [hsub.1]
                rfl
              · rw [show item_msg_depth (Item.lenItem tag body.length none
                    (some (parse_items pr al pairs (depth + 1))) none)
                    = 1 + items_msg_depth (parse_items pr al pairs (depth + 1)) from by
                  simp [item_msg_depth]]
                have h2 := hsub.2
                omega
          · rw [parse_item_len_hex_nolook hdt hg (by simpa using hlp)]
            exact ⟨by simp [item_ok, exactly_one], by simp [item_msg_depth]⟩
        · rw [parse_item_len_hex_noguard hdt hg]
          exact ⟨by simp [item_ok, exactly_one], by simp [item_msg_depth]⟩

theorem parse_message_inv (pr al : Char → Bool) (data : List Nat) (depth : Nat) :
    items_ok ((parse_message pr al data depth).getD []) = true ∧
    items_msg_depth ((parse_message pr al data depth).getD [])
      ≤ MAX_NESTED_DEPTH - depth := by
  rw [parse_message.eq_def]
  cases hpp : parse_pairs data with
  | none =>
    exact ⟨by simp [items_ok], by simp [items_msg_depth]⟩
  | some pairs =>
    dsimp only
    rw [Option.getD_some]
    exact items_level pr al depth _
      (fun p => item_inv MAX_NESTED_DEPTH depth (Nat.sub_le _ _) pr al p) pairs

/-- Claim C2: every length-delimited field record produced by the decoder
(at any nesting level) carries exactly one of the three payload
interpretations `utf8` / `message` / `bytes_hex_preview` — never zero,
never two. -/
theorem len_delimited_exactly_one :
    ∀ (pr al : Char → Bool) (data : List Nat) (depth : Nat),
      items_ok ((parse_message pr al data depth).getD []) = true :=
  fun pr al data depth => (parse_message_inv pr al data depth).1

/-- Claim C1: the nested-message nesting of the decoded tree never exceeds
`MAX_NESTED_DEPTH - depth` (so 10 from the top level), and at the cap a
non-text body is rendered as a hex preview instead of recursing or
raising. -/
theorem nested_recursion_bounded :
    (∀ (pr al : Char → Bool) (data : List Nat) (depth : Nat),
      items_msg_depth ((parse_message pr al data depth).getD [])
        ≤ MAX_NESTED_DEPTH - depth)
    ∧ (∀ (pr al : Char → Bool) (tag : Nat) (body : List Nat) (depth : Nat),
      MAX_NESTED_DEPTH ≤ depth → decode_likely_text pr al body = none →
      parse_item pr al ⟨tag, .lenV body⟩ depth
        = .lenItem tag body.length none none (some (hex_preview body))) := by
  constructor
  · intro pr al data depth
    exact (parse_message_inv pr al data depth).2
  · intro pr al tag body depth hdep hdt
    exact parse_item_len_hex_noguard hdt (fun hc => by omega)

/-- Witness for claim C1's hex-at-the-cap clause: a non-UTF-8 body at
depth 10 is rendered as a hex preview. -/
theorem nested_recursion_bounded_witness :
    parse_item ascii_printable ascii_alnum ⟨1, .lenV [255]⟩ 10
      = .lenItem 1 ([255] : List Nat).length none none (some (hex_preview [255])) :=
  nested_recursion_bounded.2 ascii_printable ascii_alnum 1 [255] 10
    (by rw [show MAX_NESTED_DEPTH = 10 from rfl]) rfl

end MitmProto
